/-
Verification of the logseg concurrent log-routing engine
(src/logseg/log_setup.py and its collaborators) against its
natural-language specification.

The Python source is shallowly embedded as executable Lean functions:

* `tryClose`, `findTag`, `subAllTags`, `processLogseg` embed the regex
  machinery of `CreateFileHandlerHandler` (patterns `LOGSEG\(.*?\)` and
  `(?<=\()(.*)(?=\))`, Python `re` leftmost / non-greedy semantics, with
  `.` not matching a newline);
* `LogState`, `addFileHandler`, `handleRecord`, `runRecords` embed the
  root logger's handler pipeline installed by `_configure_logging_handlers`
  (root rotating file sink, then `CreateFileHandlerHandler`, then the
  console stream handler) together with `_add_file_handler`'s
  check-then-create registry of per-bucket sinks;
* `listenDrain` / `listenFaults` embed the `_lt` listener loop;
* `closeLoop` / `removeIter` embed the handler tear-down loops of
  `LoggerManager.terminate_logger` and `get_logger` (a Python `for` over
  the live handler list that removes the current element, which advances
  the hidden iterator index past the element that slid into its place);
* `zoneInfo`, `mkTZFormatter`, `getLogFormatter` embed
  `_get_log_formatter`, and `percentS`, `strftimeDefault`, `renderRecord`
  embed the `TZFormatter` wire format.

Records emitted concurrently are modelled as an arbitrary interleaving
(an arbitrary list): every dispatch runs under the per-handler lock taken
by `logging.Handler.handle`, so emits through the single
`CreateFileHandlerHandler` instance are serialized in the real program.
-/

import Mathlib

namespace Logseg

/-- A message is its character list; Python string operations in
`_process_logseg` are embedded as `List Char` functions. -/
abbrev Msg := List Char

/-- The literal marker `LOGSEG(` of the routing-tag pattern
`LOGSEG\(.*?\)` from `CreateFileHandlerHandler.__init__`. -/
def marker : Msg := ['L', 'O', 'G', 'S', 'E', 'G', '(']

/-- Does the text begin with the literal `LOGSEG(`? -/
def startsMarker (s : Msg) : Bool := decide (s.take 7 = marker)

/-- Non-greedy completion of `LOGSEG\(.*?\)` after the marker: `.`
does not match a newline and `.*?` stops at the first `)`.  Returns
the captured bucket name and the rest of the text. -/
def tryClose : Msg → Option (Msg × Msg)
  | [] => none
  | c :: cs =>
    if c = ')' then some ([], cs)
    else if c = '\n' then none
    else
      match tryClose cs with
      | some (n, r) => some (c :: n, r)
      | none => none

/-- Leftmost match of `LOGSEG\(.*?\)` (Python `re` scan order: try each
start position left to right, moving on when the marker or its closing
parenthesis fails).  Returns `(prefix before the match, bucket name,
rest after the match)`. -/
def findTag : Msg → Option (Msg × Msg × Msg)
  | [] => none
  | c :: cs =>
    if startsMarker (c :: cs) then
      match tryClose ((c :: cs).drop 7) with
      | some (n, r) => some ([], n, r)
      | none =>
        match findTag cs with
        | some (p, n, r) => some (c :: p, n, r)
        | none => none
    else
      match findTag cs with
      | some (p, n, r) => some (c :: p, n, r)
      | none => none

theorem tryClose_decomp : ∀ (cs n r : Msg), tryClose cs = some (n, r) →
    cs = n ++ ')' :: r := by
  intro cs
  induction cs with
  | nil => intro n r h; simp [tryClose] at h
  | cons c cs ih =>
    intro n r h
    simp only [tryClose] at h
    split at h
    · rename_i hc
      simp only [Option.some.injEq, Prod.mk.injEq] at h
      obtain ⟨hn, hr⟩ := h
      subst hn; subst hr; subst hc
      rfl
    · split at h
      · simp at h
      · split at h
        · rename_i n0 r0 hrec
          simp only [Option.some.injEq, Prod.mk.injEq] at h
          obtain ⟨hn, hr⟩ := h
          subst hn; subst hr
          rw [ih _ _ hrec]
          rfl
        · simp at h

theorem startsMarker_decomp : ∀ (s : Msg), startsMarker s = true →
    s = marker ++ s.drop 7 := by
  intro s h
  have htake : s.take 7 = marker := of_decide_eq_true h
  conv_lhs => rw [← List.take_append_drop 7 s]
  rw [htake]

theorem findTag_decomp : ∀ (s p n r : Msg), findTag s = some (p, n, r) →
    s = p ++ marker ++ n ++ ')' :: r := by
  intro s
  induction s with
  | nil => intro p n r h; simp [findTag] at h
  | cons c cs ih =>
    intro p n r h
    simp only [findTag] at h
    split at h
    · rename_i hm
      split at h
      · rename_i n0 r0 htc
        simp only [Option.some.injEq, Prod.mk.injEq] at h
        obtain ⟨hp, hn, hr⟩ := h
        subst hp; subst hn; subst hr
        have ht := startsMarker_decomp (c :: cs) hm
        rw [tryClose_decomp _ _ _ htc] at ht
        rw [ht]
        rfl
      · split at h
        · rename_i p0 n0 r0 hrec
          simp only [Option.some.injEq, Prod.mk.injEq] at h
          obtain ⟨hp, hn, hr⟩ := h
          subst hp; subst hn; subst hr
          rw [ih _ _ _ hrec]
          simp
        · simp at h
    · split at h
      · rename_i p0 n0 r0 hrec
        simp only [Option.some.injEq, Prod.mk.injEq] at h
        obtain ⟨hp, hn, hr⟩ := h
        subst hp; subst hn; subst hr
        rw [ih _ _ _ hrec]
        simp
      · simp at h

theorem findTag_rest_lt : ∀ (s p n r : Msg), findTag s = some (p, n, r) →
    r.length < s.length := by
  intro s p n r h
  have := findTag_decomp s p n r h
  rw [this]
  simp [marker]
  omega

/-- `re.sub(segregate_regex, '', log_str)`: one left-to-right pass that
removes every non-overlapping match.  The scan resumes after the end of
each match; removed text is never re-scanned.  Defined with fuel
(`s.length` strictly bounds the chain of remainders) so that it stays
structurally recursive and kernel-evaluable. -/
def subAllFuel : Nat → Msg → Msg
  | 0, s => s
  | fuel + 1, s =>
    match findTag s with
    | some (p, _, r) => p ++ subAllFuel fuel r
    | none => s

def subAllTags (s : Msg) : Msg := subAllFuel s.length s

theorem subAllFuel_nil : ∀ fuel, subAllFuel fuel [] = [] := by
  intro fuel
  cases fuel with
  | zero => rfl
  | succ f => simp [subAllFuel, findTag]

theorem subAllFuel_congr : ∀ (f1 f2 : Nat) (s : Msg),
    s.length ≤ f1 → s.length ≤ f2 → subAllFuel f1 s = subAllFuel f2 s := by
  intro f1
  induction f1 with
  | zero =>
    intro f2 s h1 _
    have hs : s = [] := List.length_eq_zero.mp (Nat.le_zero.mp h1)
    subst hs
    rw [subAllFuel_nil, subAllFuel_nil]
  | succ f ih =>
    intro f2 s h1 h2
    cases f2 with
    | zero =>
      have hs : s = [] := List.length_eq_zero.mp (Nat.le_zero.mp h2)
      subst hs
      rw [subAllFuel_nil, subAllFuel_nil]
    | succ g =>
      cases hft : findTag s with
      | none => simp only [subAllFuel, hft]
      | some v =>
        obtain ⟨p, nn, r⟩ := v
        have hlt := findTag_rest_lt s p nn r hft
        simp only [subAllFuel, hft]
        rw [ih g r (by omega) (by omega)]

theorem subAllTags_some (s p n r : Msg) (h : findTag s = some (p, n, r)) :
    subAllTags s = p ++ subAllTags r := by
  have hne : s ≠ [] := by
    intro hs
    subst hs
    simp [findTag] at h
  match s, hne with
  | c :: cs, _ =>
    show subAllFuel (cs.length + 1) (c :: cs) = _
    simp only [subAllFuel, h]
    have hlt := findTag_rest_lt (c :: cs) p n r h
    simp at hlt
    exact congrArg (p ++ ·) (subAllFuel_congr cs.length r.length r (by omega) (by omega))

theorem subAllTags_none (s : Msg) (h : findTag s = none) :
    subAllTags s = s := by
  cases s with
  | nil => rfl
  | cons c cs =>
    show subAllFuel (cs.length + 1) (c :: cs) = _
    simp only [subAllFuel, h]

/-- `CreateFileHandlerHandler._process_logseg`: if the tag pattern
matches, the bucket name is the text between the parentheses of the
first match (the inner regex `(?<=\()(.*)(?=\))` applied to that match)
and the message is rewritten with every match removed; otherwise the
message is returned unchanged with no name. -/
def processLogseg (s : Msg) : Msg × Option Msg :=
  match findTag s with
  | some (_, n, _) => (subAllTags s, some n)
  | none => (s, none)

theorem processLogseg_none (s : Msg) (h : findTag s = none) :
    processLogseg s = (s, none) := by
  simp [processLogseg, h]

/-! ## The root logger's handler pipeline

`_configure_logging_handlers` installs, in this order, on the root
logger: the root `RotatingFileHandler` (built by `_add_file_handler`
with `folder_name=None`), the `CreateFileHandlerHandler`, and a stdout
`StreamHandler`.  `Logger.callHandlers` runs them in installation
order, so for every record the root file sink writes first (with the
routing tag still embedded in the message), then
`CreateFileHandlerHandler.emit` rewrites `record.msg`/`record.message`
in place, lazily creates the bucket's sub-logger sink and dispatches
the record to it, and finally the console handler formats the already
rewritten record. -/

/-- The state touched by dispatching records through the root logger:
the per-sub-logger handler-name lists (`instance.handlers` with
`x.name` as set by `file_handler.set_name(folder_name)`), the log of
`RotatingFileHandler` constructions (one entry per handler actually
built — construction opens a file descriptor, so the spec's invariant
is about this log), and the lines persisted by the root file sink, the
bucket sinks, and the console handler. -/
structure LogState where
  handlers : List (Msg × List Msg)
  constructed : List Msg
  rootLines : List Msg
  bucketLines : List (Msg × Msg)
  consoleLines : List Msg
deriving Repr, DecidableEq

def initState : LogState :=
  { handlers := [], constructed := [], rootLines := [],
    bucketLines := [], consoleLines := [] }

/-- `[x.name for x in instance.handlers]` for the sub-logger named
`inst` (`logging.getLogger(inst)` is a process-wide singleton, so the
state is keyed by name; a logger never looked up has no handlers). -/
def handlersOf : List (Msg × List Msg) → Msg → List Msg
  | [], _ => []
  | (k, v) :: t, inst => if k = inst then v else handlersOf t inst

def updateAssoc : List (Msg × List Msg) → Msg → List Msg → List (Msg × List Msg)
  | [], k, v => [(k, v)]
  | (k0, v0) :: t, k, v =>
    if k0 = k then (k, v) :: t else (k0, v0) :: updateAssoc t k v

/-- `_add_file_handler(config, instance, log_formatter, folder_name)`
for `folder_name = Some folder`: if no handler on `instance` carries
the name `folder`, construct a `RotatingFileHandler` (recorded in
`constructed`), name it `folder`, and append it to the instance's
handler list; otherwise do nothing.  (The `folder_name=None` call made
once at startup for the root logger creates unconditionally and is not
part of the bucket registry.) -/
def addFileHandler (st : LogState) (inst folder : Msg) : LogState :=
  if folder ∈ handlersOf st.handlers inst then st
  else
    { st with
      handlers := updateAssoc st.handlers inst (handlersOf st.handlers inst ++ [folder]),
      constructed := st.constructed ++ [folder] }

/-- One record flowing through the root logger's three handlers, in
installation order.  Each handler runs under its own lock
(`logging.Handler.handle`), so a concurrent run is an interleaving of
these atomic steps; the funnel's single listener plus lock-serialized
direct emits justify folding over an arbitrary arrival order.
* root `RotatingFileHandler`: formats and persists the record as it
  arrived (tag included);
* `CreateFileHandlerHandler.emit`: strips the tag from the message,
  and if the extracted bucket name is non-empty (Python truthiness of
  `segregate_folder_name`), ensures the bucket's sub-logger has its
  file sink (`_add_file_handler`) and dispatches the rewritten record
  to it (`logger.propagate = False` keeps that dispatch out of the
  root logger, so it reaches only the bucket sink);
* stdout `StreamHandler`: formats the record as the router left it. -/
def handleRecord (st : LogState) (msg : Msg) : LogState :=
  let st1 := { st with rootLines := st.rootLines ++ [msg] }
  let pr := processLogseg msg
  let st2 :=
    match pr.2 with
    | some n =>
      if n = [] then st1
      else
        let st' := addFileHandler st1 n n
        { st' with bucketLines := st'.bucketLines ++ [(n, pr.1)] }
    | none => st1
  { st2 with consoleLines := st2.consoleLines ++ [pr.1] }

/-- Dispatching a whole arrival order of records. -/
def runRecords (msgs : List Msg) : LogState := msgs.foldl handleRecord initState

/-- The bucket a record is routed to: the extracted segregation folder
name when it is non-empty, mirroring `name if name else
segregate_folder_name` followed by `if segregate_folder_name:`. -/
def bucketOf (msg : Msg) : Option Msg :=
  match (processLogseg msg).2 with
  | some n => if n = [] then none else some n
  | none => none

/-- The message text as the router leaves it on the record. -/
def strippedOf (msg : Msg) : Msg := (processLogseg msg).1

theorem addFileHandler_rootLines (st : LogState) (i f : Msg) :
    (addFileHandler st i f).rootLines = st.rootLines := by
  simp only [addFileHandler]
  split <;> rfl

theorem addFileHandler_consoleLines (st : LogState) (i f : Msg) :
    (addFileHandler st i f).consoleLines = st.consoleLines := by
  simp only [addFileHandler]
  split <;> rfl

theorem addFileHandler_bucketLines (st : LogState) (i f : Msg) :
    (addFileHandler st i f).bucketLines = st.bucketLines := by
  simp only [addFileHandler]
  split <;> rfl

theorem addFileHandler_handlers (st : LogState) (i f : Msg) :
    (addFileHandler st i f).handlers =
      if f ∈ handlersOf st.handlers i then st.handlers
      else updateAssoc st.handlers i (handlersOf st.handlers i ++ [f]) := by
  simp only [addFileHandler]
  split <;> simp_all

theorem addFileHandler_constructed (st : LogState) (i f : Msg) :
    (addFileHandler st i f).constructed =
      if f ∈ handlersOf st.handlers i then st.constructed
      else st.constructed ++ [f] := by
  simp only [addFileHandler]
  split <;> simp_all

theorem handleRecord_rootLines (st : LogState) (msg : Msg) :
    (handleRecord st msg).rootLines = st.rootLines ++ [msg] := by
  simp only [handleRecord]
  split
  · split
    · rfl
    · simp [addFileHandler_rootLines]
  · rfl

theorem handleRecord_consoleLines (st : LogState) (msg : Msg) :
    (handleRecord st msg).consoleLines = st.consoleLines ++ [strippedOf msg] := by
  simp only [handleRecord, strippedOf]
  split
  · split
    · rfl
    · simp [addFileHandler_consoleLines]
  · rfl

/-- The bucket-sink lines one record contributes. -/
def bucketEntryOf (msg : Msg) : List (Msg × Msg) :=
  match bucketOf msg with
  | some b => [(b, strippedOf msg)]
  | none => []

theorem handleRecord_bucketLines (st : LogState) (msg : Msg) :
    (handleRecord st msg).bucketLines = st.bucketLines ++ bucketEntryOf msg := by
  simp only [handleRecord, bucketEntryOf, bucketOf, strippedOf]
  cases hp : (processLogseg msg).2 with
  | none => simp
  | some n =>
    by_cases hn : n = []
    · simp [hn]
    · simp [hn, addFileHandler_bucketLines]

theorem handleRecord_handlers (st : LogState) (msg : Msg) :
    (handleRecord st msg).handlers =
      match bucketOf msg with
      | some b => (addFileHandler st b b).handlers
      | none => st.handlers := by
  simp only [handleRecord, bucketOf]
  cases hp : (processLogseg msg).2 with
  | none => simp
  | some n =>
    by_cases hn : n = []
    · simp [hn]
    · simp [hn, addFileHandler_handlers]

theorem handleRecord_constructed (st : LogState) (msg : Msg) :
    (handleRecord st msg).constructed =
      match bucketOf msg with
      | some b => (addFileHandler st b b).constructed
      | none => st.constructed := by
  simp only [handleRecord, bucketOf]
  cases hp : (processLogseg msg).2 with
  | none => simp
  | some n =>
    by_cases hn : n = []
    · simp [hn]
    · simp [hn, addFileHandler_constructed]

theorem foldl_rootLines : ∀ (msgs : List Msg) (st : LogState),
    (msgs.foldl handleRecord st).rootLines = st.rootLines ++ msgs := by
  intro msgs
  induction msgs with
  | nil => intro st; simp
  | cons m t ih =>
    intro st
    simp only [List.foldl_cons, ih, handleRecord_rootLines]
    simp

/-- All bucket-sink lines produced by an arrival order, in order. -/
def catEntries : List Msg → List (Msg × Msg)
  | [] => []
  | m :: t => bucketEntryOf m ++ catEntries t

theorem foldl_bucketLines : ∀ (msgs : List Msg) (st : LogState),
    (msgs.foldl handleRecord st).bucketLines = st.bucketLines ++ catEntries msgs := by
  intro msgs
  induction msgs with
  | nil => intro st; simp [catEntries]
  | cons m t ih =>
    intro st
    simp only [List.foldl_cons, ih, handleRecord_bucketLines, catEntries]
    simp

theorem filter_catEntries (b : Msg) : ∀ (msgs : List Msg),
    ((catEntries msgs).filter (fun e => decide (e.1 = b))).length
      = msgs.countP (fun m => decide (bucketOf m = some b)) := by
  intro msgs
  induction msgs with
  | nil => simp [catEntries]
  | cons m t ih =>
    simp only [catEntries, List.filter_append, List.length_append, ih, List.countP_cons]
    cases hb : bucketOf m with
    | none => simp [bucketEntryOf, hb]
    | some b0 =>
      by_cases hbb : b0 = b
      · subst hbb
        simp [bucketEntryOf, hb]
        omega
      · simp [bucketEntryOf, hb, hbb]

/-! ## The bucket sink registry (C2) -/

theorem handlersOf_updateAssoc_self : ∀ (h : List (Msg × List Msg)) (k : Msg)
    (v : List Msg), handlersOf (updateAssoc h k v) k = v := by
  intro h
  induction h with
  | nil => intro k v; simp [updateAssoc, handlersOf]
  | cons e t ih =>
    intro k v
    obtain ⟨k0, v0⟩ := e
    by_cases hk : k0 = k
    · simp [updateAssoc, hk, handlersOf]
    · simp [updateAssoc, hk, handlersOf, ih]

theorem handlersOf_updateAssoc_other : ∀ (h : List (Msg × List Msg)) (k k2 : Msg)
    (v : List Msg), k ≠ k2 → handlersOf (updateAssoc h k v) k2 = handlersOf h k2 := by
  intro h
  induction h with
  | nil => intro k k2 v hne; simp [updateAssoc, handlersOf, hne]
  | cons e t ih =>
    intro k k2 v hne
    obtain ⟨k0, v0⟩ := e
    by_cases hk : k0 = k
    · subst hk
      simp [updateAssoc, handlersOf, hne]
    · simp [updateAssoc, hk, handlersOf, ih _ _ _ hne]

/-- The spec's registry invariant: a bucket's sub-logger either has no
file sink yet and none was ever constructed for it, or it has exactly
the one sink named after it and exactly one construction happened. -/
def RegistryInv (st : LogState) : Prop :=
  ∀ b : Msg,
    (handlersOf st.handlers b = [] ∧ st.constructed.count b = 0) ∨
    (handlersOf st.handlers b = [b] ∧ st.constructed.count b = 1)

theorem registryInv_init : RegistryInv initState := by
  intro b
  left
  simp [initState, handlersOf]

theorem registryInv_addFileHandler (st : LogState) (b0 : Msg)
    (h : RegistryInv st) : RegistryInv (addFileHandler st b0 b0) := by
  intro b
  rw [addFileHandler_handlers, addFileHandler_constructed]
  by_cases hmem : b0 ∈ handlersOf st.handlers b0
  · simp only [hmem, if_true]
    exact h b
  · simp only [hmem, if_false]
    by_cases hb : b0 = b
    · subst hb
      right
      rcases h b0 with ⟨h1, h2⟩ | ⟨h1, h2⟩
      · constructor
        · rw [handlersOf_updateAssoc_self, h1]
          rfl
        · simp [h2]
      · exact absurd (h1 ▸ List.mem_singleton_self b0) hmem
    · rw [handlersOf_updateAssoc_other _ _ _ _ hb]
      have hone : List.count b [b0] = 0 := by
        apply List.count_eq_zero.mpr
        simp
        intro hc
        exact hb hc.symm
      have hcount : (st.constructed ++ [b0]).count b = st.constructed.count b := by
        rw [List.count_append, hone]
        rfl
      rw [hcount]
      exact h b

theorem registryInv_handleRecord (st : LogState) (msg : Msg)
    (h : RegistryInv st) : RegistryInv (handleRecord st msg) := by
  intro b
  rw [handleRecord_handlers, handleRecord_constructed]
  cases hb : bucketOf msg with
  | none => exact h b
  | some b0 => exact registryInv_addFileHandler st b0 h b

theorem handlersOf_handleRecord_mono (st : LogState) (msg b : Msg)
    (h : handlersOf st.handlers b = [b]) :
    handlersOf (handleRecord st msg).handlers b = [b] := by
  rw [handleRecord_handlers]
  cases hb : bucketOf msg with
  | none => exact h
  | some b0 =>
    show handlersOf (addFileHandler st b0 b0).handlers b = [b]
    rw [addFileHandler_handlers]
    by_cases hmem : b0 ∈ handlersOf st.handlers b0
    · simp only [hmem, if_true]
      exact h
    · simp only [hmem, if_false]
      by_cases hbb : b0 = b
      · subst hbb
        exact absurd (h ▸ List.mem_singleton_self b0) hmem
      · rw [handlersOf_updateAssoc_other _ _ _ _ hbb]
        exact h

theorem handlersOf_after_emit (st : LogState) (msg b : Msg)
    (hinv : RegistryInv st) (hb : bucketOf msg = some b) :
    handlersOf (handleRecord st msg).handlers b = [b] := by
  rw [handleRecord_handlers, hb]
  show handlersOf (addFileHandler st b b).handlers b = [b]
  rw [addFileHandler_handlers]
  by_cases hmem : b ∈ handlersOf st.handlers b
  · simp only [hmem, if_true]
    rcases hinv b with ⟨h1, _⟩ | ⟨h1, _⟩
    · rw [h1] at hmem
      exact absurd hmem (List.not_mem_nil b)
    · exact h1
  · simp only [hmem, if_false]
    rcases hinv b with ⟨h1, _⟩ | ⟨h1, _⟩
    · rw [handlersOf_updateAssoc_self, h1]
      rfl
    · exact absurd (h1 ▸ List.mem_singleton_self b) hmem

theorem foldl_registry : ∀ (msgs : List Msg) (st : LogState), RegistryInv st →
    RegistryInv (msgs.foldl handleRecord st) ∧
    ∀ b : Msg, (handlersOf st.handlers b = [b] ∨ ∃ m ∈ msgs, bucketOf m = some b) →
      handlersOf (msgs.foldl handleRecord st).handlers b = [b] := by
  intro msgs
  induction msgs with
  | nil =>
    intro st hinv
    refine ⟨hinv, ?_⟩
    intro b hb
    rcases hb with hb | ⟨m, hm, _⟩
    · exact hb
    · exact absurd hm (List.not_mem_nil m)
  | cons m t ih =>
    intro st hinv
    have hstep := registryInv_handleRecord st m hinv
    obtain ⟨ih1, ih2⟩ := ih (handleRecord st m) hstep
    refine ⟨ih1, ?_⟩
    intro b hb
    apply ih2
    rcases hb with hb | ⟨m0, hm0, hbm0⟩
    · exact Or.inl (handlersOf_handleRecord_mono st m b hb)
    · rcases List.mem_cons.mp hm0 with rfl | hm0t
      · exact Or.inl (handlersOf_after_emit st m0 b hinv hbm0)
      · exact Or.inr ⟨m0, hm0t, hbm0⟩

/-! ## The funnel listener `_lt` (C4, C8)

`while True: record = queue.get(); if record is None: break;
logging.getLogger(record.name).handle(record)`.  The queue is FIFO
(a `Manager().Queue()`), so the listener sees items in enqueue order;
`None` is the termination sentinel put by `terminate_logger`. -/

/-- The records the listener dequeues and dispatches, in order: it
stops at the first sentinel and processes everything before it. -/
def listenDrain : List (Option Msg) → List Msg
  | [] => []
  | none :: _ => []
  | some r :: rest => r :: listenDrain rest

/-- `LoggerManager.terminate_logger`: put the sentinel behind every
already-enqueued record, join the listener (so it has dispatched
everything before the sentinel through the root pipeline), then close
the handlers, which flushes any buffered output. -/
def terminateLogger (qs : List Msg) : LogState :=
  runRecords (listenDrain (qs.map some ++ [none]))

theorem listenDrain_map_some : ∀ (qs : List Msg) (rest : List (Option Msg)),
    listenDrain (qs.map some ++ none :: rest) = qs := by
  intro qs
  induction qs with
  | nil => intro rest; simp [listenDrain]
  | cons q t ih => intro rest; simp [listenDrain, ih]

/-- The possible outcomes of fanning one record out to the handlers.
`CreateFileHandlerHandler.emit` wraps its whole body in
`try ... except RecursionError: raise except Exception:
self.handleError(record)`, and the standard library sinks likewise
report emit-time faults through `handleError`; only a
`RecursionError` escapes `Logger.handle` into the listener loop. -/
inductive Fault
  | ok
  | exc
  | recur
deriving DecidableEq, Repr

/-- Dispatch of one record under the emit-level guards: `Except.ok b`
means `logger.handle` returned (with `b` recording whether
`handleError` was invoked); `Except.error ()` means a `RecursionError`
was re-raised. -/
def emitGuard : Fault → Except Unit Bool
  | Fault.ok => Except.ok false
  | Fault.exc => Except.ok true
  | Fault.recur => Except.error ()

/-- The listener loop over records annotated with their dispatch
outcome: `Except.ok processed` when the loop reached a sentinel (or is
still blocked on an empty queue) after dispatching `processed`;
`Except.error processed` when an escaping `RecursionError` killed the
loop after `processed`. -/
def listenFaults : List (Option (Msg × Fault)) → Except (List Msg) (List Msg)
  | [] => Except.ok []
  | none :: _ => Except.ok []
  | some (m, f) :: rest =>
    match emitGuard f with
    | Except.error _ => Except.error []
    | Except.ok _ =>
      match listenFaults rest with
      | Except.ok ms => Except.ok (m :: ms)
      | Except.error ms => Except.error (m :: ms)

theorem listenFaults_clean : ∀ (post : List (Msg × Fault)),
    (∀ p ∈ post, p.2 ≠ Fault.recur) →
    listenFaults (post.map some ++ [none]) = Except.ok (post.map Prod.fst) := by
  intro post
  induction post with
  | nil => intro _; simp [listenFaults]
  | cons p t ih =>
    intro h
    obtain ⟨m, f⟩ := p
    have hf : f ≠ Fault.recur := h (m, f) (List.mem_cons_self _ _)
    have ht : ∀ q ∈ t, q.2 ≠ Fault.recur := fun q hq => h q (List.mem_cons_of_mem _ hq)
    cases f with
    | recur => exact absurd rfl hf
    | ok => simp [listenFaults, emitGuard, ih ht]
    | exc => simp [listenFaults, emitGuard, ih ht]

/-! ## Handler tear-down loops (C7, C10)

Both `LoggerManager.terminate_logger` and the child-process branch of
`get_logger` run `for handler in root.handlers: handler.close();
root.removeHandler(handler)`.  A Python `list` iterator holds a bare
index; `removeHandler` deletes the current element from the very list
being iterated, so the element that slides into the current position
is never visited.  `closeLoop fuel l i` replays this: visit index `i`,
delete it, advance to `i + 1`; the fuel (the initial length bounds the
iteration count) keeps the definition structural. -/

def closeLoop {α : Type} : Nat → List α → Nat → List α
  | 0, l, _ => l
  | fuel + 1, l, i =>
    if i < l.length then closeLoop fuel (l.eraseIdx i) (i + 1) else l

/-- The handler list left behind by the tear-down loop. -/
def removeIter {α : Type} (l : List α) : List α := closeLoop l.length l 0

/-- Elements at odd positions of a list. -/
def oddElems {α : Type} : List α → List α
  | [] => []
  | [_] => []
  | _ :: b :: t => b :: oddElems t

theorem take_ge {α : Type} : ∀ (l : List α) (i : Nat), l.length ≤ i → l.take i = l := by
  intro l
  induction l with
  | nil => intro i _; simp
  | cons a t ih =>
    intro i h
    cases i with
    | zero => simp at h
    | succ j =>
      simp only [List.take_succ_cons]
      rw [ih j (by simpa using h)]

theorem drop_ge {α : Type} : ∀ (l : List α) (i : Nat), l.length ≤ i → l.drop i = [] := by
  intro l
  induction l with
  | nil => intro i _; simp
  | cons a t ih =>
    intro i h
    cases i with
    | zero => simp at h
    | succ j =>
      simp only [List.drop_succ_cons]
      exact ih j (by simpa using h)

theorem drop_cons_succ {α : Type} : ∀ (l : List α) (i : Nat) (x : α) (B : List α),
    l.drop i = x :: B → l.drop (i + 1) = B := by
  intro l
  induction l with
  | nil => intro i x B h; simp at h
  | cons a t ih =>
    intro i x B h
    cases i with
    | zero =>
      simp only [List.drop_zero] at h
      cases h
      simp
    | succ j =>
      simp only [List.drop_succ_cons] at h ⊢
      exact ih j x B h

theorem eraseIdx_take_drop {α : Type} : ∀ (l : List α) (i : Nat),
    l.eraseIdx i = l.take i ++ l.drop (i + 1) := by
  intro l
  induction l with
  | nil => intro i; simp
  | cons a t ih =>
    intro i
    cases i with
    | zero => simp
    | succ j =>
      simp only [List.eraseIdx_cons_succ, List.take_succ_cons, List.drop_succ_cons,
        List.cons_append]
      rw [ih j]

theorem take_len_append {α : Type} : ∀ (A B : List α) (n : Nat),
    (A ++ B).take (A.length + n) = A ++ B.take n := by
  intro A
  induction A with
  | nil => intro B n; simp
  | cons a t ih =>
    intro B n
    simp only [List.cons_append, List.length_cons]
    have : t.length + 1 + n = (t.length + n) + 1 := by omega
    rw [this, List.take_succ_cons, ih]

theorem drop_len_append {α : Type} : ∀ (A B : List α) (n : Nat),
    (A ++ B).drop (A.length + n) = B.drop n := by
  intro A
  induction A with
  | nil => intro B n; simp
  | cons a t ih =>
    intro B n
    simp only [List.cons_append, List.length_cons]
    have : t.length + 1 + n = (t.length + n) + 1 := by omega
    rw [this, List.drop_succ_cons, ih]

theorem closeLoop_spec {α : Type} : ∀ (fuel : Nat) (l : List α) (i : Nat),
    l.length ≤ i + fuel →
    closeLoop fuel l i = l.take i ++ oddElems (l.drop i) := by
  intro fuel
  induction fuel with
  | zero =>
    intro l i h
    simp only [Nat.add_zero] at h
    simp only [closeLoop]
    rw [take_ge l i h, drop_ge l i h]
    simp [oddElems]
  | succ f ih =>
    intro l i h
    simp only [closeLoop]
    by_cases hi : i < l.length
    · simp only [hi, if_true]
      have hdlen : (l.drop i).length = l.length - i := List.length_drop i l
      cases hD : l.drop i with
      | nil => rw [hD] at hdlen; simp at hdlen; omega
      | cons x B =>
        have hB : l.drop (i + 1) = B := drop_cons_succ l i x B hD
        have herase : l.eraseIdx i = l.take i ++ B := by
          rw [eraseIdx_take_drop, hB]
        have hlenA : (l.take i).length = i := by
          rw [List.length_take]
          omega
        have hlenerase : (l.eraseIdx i).length = i + B.length := by
          rw [herase, List.length_append, hlenA]
        have hBlen : B.length = l.length - i - 1 := by
          rw [hD] at hdlen
          simp at hdlen
          omega
        rw [ih (l.eraseIdx i) (i + 1) (by omega)]
        rw [herase]
        have h1 : (l.take i ++ B).take (i + 1) = l.take i ++ B.take 1 := by
          rw [show i + 1 = (l.take i).length + 1 from by rw [hlenA]]
          exact take_len_append _ _ _
        have h2 : (l.take i ++ B).drop (i + 1) = B.drop 1 := by
          rw [show i + 1 = (l.take i).length + 1 from by rw [hlenA]]
          exact drop_len_append _ _ _
        rw [h1, h2]
        cases B with
        | nil => simp [oddElems]
        | cons y t => simp [oddElems]
    · simp only [hi, if_false]
      have hle : l.length ≤ i := by omega
      rw [take_ge l i hle, drop_ge l i hle]
      simp [oddElems]

theorem removeIter_eq_oddElems {α : Type} (l : List α) :
    removeIter l = oddElems l := by
  have := closeLoop_spec l.length l 0 (by omega)
  simpa [removeIter] using this

/-- The child-process branch of `get_logger(name, queue)` (taken when
`current_process().name != 'MainProcess'` and a queue was supplied):
after building the `QueueHandler` named after the process id and
redirecting the child's stdio, it runs the tear-down loop over the
child's root logger handlers and then attaches the queue handler to
the root logger unless one with that name is already present.  The
returned named logger itself gets no handler; it reaches the queue
handler through propagation to the root logger. -/
def childGetLogger (rootHandlers : List String) (pid : String) : List String :=
  let cleaned := removeIter rootHandlers
  if pid ∈ cleaned then cleaned else cleaned ++ [pid]

/-! ## Timezone formatter `_get_log_formatter` (C5, C6) -/

/-- `zoneinfo.ZoneInfo(key)`: yields the zone for a recognized IANA
identifier and raises `ZoneInfoNotFoundError` otherwise.  The set of
identifiers the host recognizes is a parameter of the model. -/
def zoneInfo (validZones : List String) (key : String) : Except String String :=
  if key ∈ validZones then Except.ok key else Except.error "ZoneInfoNotFoundError"

structure TZFormatterModel where
  fmt : String
  tz : String
deriving DecidableEq, Repr

/-- `TZFormatter.__init__`: stores the format and evaluates
`ZoneInfo(tz)` with no exception handling — an unrecognized
identifier propagates `ZoneInfoNotFoundError` to the caller. -/
def mkTZFormatter (validZones : List String) (fmt tz : String) :
    Except String TZFormatterModel :=
  match zoneInfo validZones tz with
  | Except.ok z => Except.ok { fmt := fmt, tz := z }
  | Except.error e => Except.error e

/-- `_get_log_formatter`: reads the configured timezone and constructs
`TZFormatter("%(asctime)s: %(levelname)7s > %(message)s", tz=timezone)`. -/
def getLogFormatter (validZones : List String) (timezone : String) :
    Except String TZFormatterModel :=
  mkTZFormatter validZones "%(asctime)s: %(levelname)7s > %(message)s" timezone

/-- `%<width>s` in Python's percent formatting: right-justify in a
field of minimum `width`, padding with spaces on the left; longer
values are not truncated. -/
def percentS (width : Nat) (s : String) : String :=
  if width ≤ s.length then s
  else String.mk (List.replicate (width - s.length) ' ') ++ s

/-- `Formatter.format` with `"%(asctime)s: %(levelname)7s > %(message)s"`. -/
def formatRecordLine (asctime levelname message : String) : String :=
  asctime ++ ": " ++ percentS 7 levelname ++ " > " ++ message

/-- The persisted line: `StreamHandler.emit` writes the formatted
record followed by the terminator `"\n"`. -/
def emitLine (asctime levelname message : String) : String :=
  formatRecordLine asctime levelname message ++ "\n"

/-- `%<width>d`-style zero padding used by `strftime`. -/
def padZero (width : Nat) (s : String) : String :=
  if width ≤ s.length then s
  else String.mk (List.replicate (width - s.length) '0') ++ s

/-- `TZFormatter.formatTime` with `datefmt=None`:
`dt.strftime('%Y-%m-%d %H:%M:%S.%f')` on the record's creation time
converted to the configured zone. -/
def strftimeDefault (y mo d hh mi ss us : Nat) : String :=
  padZero 4 (toString y) ++ "-" ++ padZero 2 (toString mo) ++ "-" ++
    padZero 2 (toString d) ++ " " ++ padZero 2 (toString hh) ++ ":" ++
    padZero 2 (toString mi) ++ ":" ++ padZero 2 (toString ss) ++ "." ++
    padZero 6 (toString us)

/-- A fully rendered persisted line for a record whose creation time
has the given fields in the configured zone. -/
def renderRecord (y mo d hh mi ss us : Nat) (lvl msg : String) : String :=
  emitLine (strftimeDefault y mo d hh mi ss us) lvl msg

/-- The spec's reading of the wire format: severity *right-padded*
with spaces to 7 characters. -/
def formatRecordLineSpec (asctime levelname message : String) : String :=
  asctime ++ ": " ++ (levelname ++ String.mk (List.replicate (7 - levelname.length) ' '))
    ++ " > " ++ message ++ "\n"

/-! ## Spec-side reading of tag stripping (C3) -/

/-- The spec's "original message minus the tag": remove exactly the
first (authoritative) match and keep everything else. -/
def stripFirstTagSpec (s : Msg) : Msg :=
  match findTag s with
  | some (p, _, r) => p ++ r
  | none => s

/-- Does the text contain a substring matching the routing-tag
pattern? -/
def hasTag (s : Msg) : Bool := (findTag s).isSome

/-- `"LOGSEG()" ++ body`: a record whose tag resolves to an empty
bucket name. -/
def emptyTagged (body : Msg) : Msg := marker ++ ')' :: body

/-! # The claims -/

/-- C1 counterexample: a record tagged for bucket `a` is persisted by
the bucket sink, but the root sink's line list is *not* empty — the
root rotating file handler runs before the router, so the record is
also persisted by the root sink (with the tag text still embedded),
contradicting "dispatched only to its bucket's RotatingFileSink and
not also persisted by the root sink". -/
theorem c1_counterexample :
    bucketOf ("LOGSEG(a)hello".toList) = some ['a'] ∧
    (runRecords ["LOGSEG(a)hello".toList]).bucketLines = [(['a'], "hello".toList)] ∧
    (runRecords ["LOGSEG(a)hello".toList]).rootLines ≠ [] := by decide

/-- C1 (amended): every record — tagged or not — is persisted by the
root sink exactly once (the root file handler precedes the router in
the root logger's handler list), and each bucket's sink receives
exactly the records tagged to it, so in the two-thread scenario
`<dir>/a/logs.log` and `<dir>/b/logs.log` each hold their 10 tagged
records while the root `logs.log` holds all 20 of them as well;
`propagate = False` on the bucket sub-logger only prevents the bucket
dispatch from re-entering the root logger. -/
theorem c1_tagged_records_root_and_bucket (msgs : List Msg) (b : Msg) :
    (runRecords msgs).rootLines = msgs ∧
    ((runRecords msgs).bucketLines.filter (fun e => decide (e.1 = b))).length
      = msgs.countP (fun m => decide (bucketOf m = some b)) := by
  constructor
  · simp only [runRecords, foldl_rootLines]
    rfl
  · simp only [runRecords, foldl_bucketLines]
    exact filter_catEntries b msgs

/-- C2: for every arrival order of records and every bucket name that
some record is tagged with, exactly one rotating file sink is ever
constructed for that bucket, and no bucket ever gets more than one —
the check-then-create in `_add_file_handler` runs under the
`CreateFileHandlerHandler`'s handler lock, so the registry invariant
holds across every emit. -/
theorem c2_exactly_one_sink (msgs : List Msg) (b : Msg)
    (hmem : ∃ m ∈ msgs, bucketOf m = some b) :
    (runRecords msgs).constructed.count b = 1 ∧
    ∀ b2 : Msg, (runRecords msgs).constructed.count b2 ≤ 1 := by
  simp only [runRecords]
  obtain ⟨hinv, hreach⟩ := foldl_registry msgs initState registryInv_init
  constructor
  · have hb : handlersOf (msgs.foldl handleRecord initState).handlers b = [b] :=
      hreach b (Or.inr hmem)
    rcases hinv b with ⟨h1, _⟩ | ⟨_, h2⟩
    · rw [hb] at h1
      simp at h1
    · exact h2
  · intro b2
    rcases hinv b2 with ⟨_, h2⟩ | ⟨_, h2⟩ <;> omega

theorem c2_witness :
    (runRecords ["LOGSEG(a)x".toList, "LOGSEG(a)y".toList]).constructed.count "a".toList = 1 ∧
    ∀ b2 : Msg, (runRecords ["LOGSEG(a)x".toList, "LOGSEG(a)y".toList]).constructed.count b2 ≤ 1 :=
  c2_exactly_one_sink _ _ ⟨"LOGSEG(a)x".toList, by decide, by decide⟩

/-- C3 counterexample: `re.sub` removes *every* non-overlapping match,
not just the authoritative first one — on
`LOGSEG(a)xLOGSEG(b)y` the persisted remainder `xy` differs from the
original minus the (first) tag, `xLOGSEG(b)y`; and on
`LOGSLOGSEG(a)EG(b)c` removal splices the surrounding text into a new
`LOGSEG(b)` tag, so the persisted message still contains a tag
substring. -/
theorem c3_counterexample :
    hasTag "LOGSEG(a)xLOGSEG(b)y".toList = true ∧
    (processLogseg "LOGSEG(a)xLOGSEG(b)y".toList).1
      ≠ stripFirstTagSpec "LOGSEG(a)xLOGSEG(b)y".toList ∧
    hasTag ((processLogseg "LOGSLOGSEG(a)EG(b)c".toList).1) = true := by decide

/-- C3 (amended): when the message contains exactly one tag match, the
round-trip holds as claimed — the message decomposes as
`prefix ++ "LOGSEG(" ++ name ++ ")" ++ rest`, the persisted remainder
is byte-identical to `prefix ++ rest` (the original minus the tag),
and the extracted bucket is `name`.  With several matches the router
removes them all in one left-to-right pass, and removal can splice a
new tag substring into the persisted text. -/
theorem c3_single_tag_roundtrip (s p n r : Msg)
    (h : findTag s = some (p, n, r)) (hr : findTag r = none) :
    s = p ++ marker ++ n ++ ')' :: r ∧ processLogseg s = (p ++ r, some n) := by
  refine ⟨findTag_decomp s p n r h, ?_⟩
  simp only [processLogseg, h]
  rw [subAllTags_some s p n r h, subAllTags_none r hr]

theorem c3_witness :
    "LOGSEG(a)hello".toList = [] ++ marker ++ ['a'] ++ ')' :: "hello".toList ∧
    processLogseg "LOGSEG(a)hello".toList = ([] ++ "hello".toList, some ['a']) :=
  c3_single_tag_roundtrip _ _ _ _ (by decide) (by decide)

/-- C4: `terminate_logger` first enqueues the sentinel `None` behind
every record already in the FIFO funnel queue and joins the listener;
the listener therefore dequeues and dispatches exactly the previously
enqueued records, in order, before observing the sentinel and exiting,
and each of them has been persisted by the root sink when the
subsequent handler close/flush runs — so every record enqueued before
`terminate()` is on disk before it returns. -/
theorem c4_terminate_drains (qs : List Msg) :
    listenDrain (qs.map some ++ [none]) = qs ∧
    (terminateLogger qs).rootLines = qs := by
  have hl : listenDrain (qs.map some ++ [none]) = qs := listenDrain_map_some qs []
  refine ⟨hl, ?_⟩
  simp only [terminateLogger, hl, runRecords]
  have h := foldl_rootLines qs initState
  simpa [initState] using h

/-- C5 counterexample: with a host that recognizes only `UTC`,
constructing the formatter for an invalid identifier does not fall
back to any default — it evaluates to the raised
`ZoneInfoNotFoundError`, which at startup propagates out of
`logger_init` to the caller. -/
theorem c5_counterexample :
    getLogFormatter ["UTC"] "Mars/OlympusMons"
      = Except.error "ZoneInfoNotFoundError" := rfl

/-- C5 (amended): for every invalid IANA identifier the formatter
constructor raises `ZoneInfoNotFoundError` — `TZFormatter.__init__`
calls `ZoneInfo(tz)` with no exception handling and no fallback zone,
so no formatter value is ever produced; the error reaches
`logger_init`'s caller at startup (only inside
`CreateFileHandlerHandler.emit` is it swallowed by the generic
`except Exception` and reported via `handleError`). -/
theorem c5_invalid_timezone_raises (validZones : List String) (tz : String)
    (h : tz ∉ validZones) :
    getLogFormatter validZones tz = Except.error "ZoneInfoNotFoundError" ∧
    ∀ f : TZFormatterModel, getLogFormatter validZones tz ≠ Except.ok f := by
  have herr : getLogFormatter validZones tz = Except.error "ZoneInfoNotFoundError" := by
    simp [getLogFormatter, mkTZFormatter, zoneInfo, h]
  refine ⟨herr, ?_⟩
  intro f hf
  rw [herr] at hf
  exact Except.noConfusion hf

theorem c5_witness :
    getLogFormatter ["UTC"] "Not/AZone" = Except.error "ZoneInfoNotFoundError" ∧
    ∀ f : TZFormatterModel, getLogFormatter ["UTC"] "Not/AZone" ≠ Except.ok f :=
  c5_invalid_timezone_raises _ _ (by decide)

/-- C6 counterexample: `%(levelname)7s` right-*justifies* (pads on the
left), so the rendered line differs from the spec's reading in which
the severity is right-padded with trailing spaces. -/
theorem c6_counterexample :
    emitLine "2026-01-02 03:04:05.000006" "INFO" "hello"
      ≠ formatRecordLineSpec "2026-01-02 03:04:05.000006" "INFO" "hello" := by decide

/-- C6 (amended): a persisted line is
`<timestamp>: <severity> > <message>\n` with the timestamp rendered by
`strftime('%Y-%m-%d %H:%M:%S.%f')` in the configured zone, but the
severity is *left*-padded (right-justified) to a *minimum* field width
of 7 — names shorter than 7 gain leading spaces and `CRITICAL`
(8 characters) is not truncated. -/
theorem c6_wire_format (lvl : String)
    (h : lvl ∈ ["DEBUG", "INFO", "WARNING", "ERROR", "CRITICAL"])
    (y mo d hh mi ss us : Nat) (msg : String) :
    renderRecord y mo d hh mi ss us lvl msg
      = strftimeDefault y mo d hh mi ss us ++ ": " ++ percentS 7 lvl
          ++ " > " ++ msg ++ "\n" ∧
    (percentS 7 lvl).length = max 7 lvl.length ∧
    percentS 7 lvl = String.mk (List.replicate (7 - lvl.length) ' ') ++ lvl := by
  refine ⟨?_, ?_, ?_⟩
  · simp [renderRecord, emitLine, formatRecordLine, String.append_assoc]
  · fin_cases h <;> decide
  · fin_cases h <;> decide

theorem c6_witness :
    renderRecord 2026 1 2 3 4 5 6 "CRITICAL" "boom"
      = strftimeDefault 2026 1 2 3 4 5 6 ++ ": " ++ percentS 7 "CRITICAL"
          ++ " > " ++ "boom" ++ "\n" ∧
    (percentS 7 "CRITICAL").length = max 7 "CRITICAL".length ∧
    percentS 7 "CRITICAL"
      = String.mk (List.replicate (7 - "CRITICAL".length) ' ') ++ "CRITICAL" :=
  c6_wire_format "CRITICAL" (by decide) 2026 1 2 3 4 5 6 "boom"

/-- C7: evaluating the tear-down loop of `terminate_logger` on the
three handlers `_configure_logging_handlers` installs (root rotating
file sink, `CreateFileHandlerHandler`, stdout stream handler): the
loop removes the handlers at even indices only, because it iterates
the very list it mutates, so the router handler survives and the root
logger's handler list is *not* empty when `terminate()` returns. -/
theorem c7_teardown_skips_router :
    removeIter ["root_rotating_file", "create_file_handler_handler", "stdout_stream"]
      = ["create_file_handler_handler"] ∧
    removeIter ["root_rotating_file", "create_file_handler_handler", "stdout_stream"]
      ≠ [] := by decide

/-- C8: a record whose fan-out raises an ordinary exception does not
stop the listener — `CreateFileHandlerHandler.emit` (and the standard
sinks) convert every fault except `RecursionError` into a
`handleError` report, so the loop dispatches the records before the
faulty one, the faulty one, and the records after it, and ends only on
dequeuing the `None` sentinel. -/
theorem c8_listener_survives_fault (pre post : List (Msg × Fault)) (m : Msg)
    (hpre : ∀ p ∈ pre, p.2 ≠ Fault.recur)
    (hpost : ∀ p ∈ post, p.2 ≠ Fault.recur) :
    listenFaults ((pre ++ (m, Fault.exc) :: post).map some ++ [none])
      = Except.ok (pre.map Prod.fst ++ m :: post.map Prod.fst) := by
  have hall : ∀ p ∈ pre ++ (m, Fault.exc) :: post, p.2 ≠ Fault.recur := by
    intro p hp
    rcases List.mem_append.mp hp with hp | hp
    · exact hpre p hp
    · rcases List.mem_cons.mp hp with rfl | hp
      · simp
      · exact hpost p hp
  have h := listenFaults_clean _ hall
  simpa using h

theorem c8_witness :
    listenFaults (([("r1".toList, Fault.ok)] ++ ("boom".toList, Fault.exc)
        :: [("r2".toList, Fault.ok)]).map some ++ [none])
      = Except.ok ([("r1".toList, Fault.ok)].map Prod.fst
          ++ "boom".toList :: [("r2".toList, Fault.ok)].map Prod.fst) :=
  c8_listener_survives_fault _ _ _ (by decide) (by decide)

/-- C9 counterexample: on `LOGSEG()text` no bucket sink or sub-logger
is created and no error escapes, but the record is *not* handled
"unchanged, exactly as a record with no tag": the router still strips
the empty tag in place, so the console handler (which runs after the
router) persists `text`, not the original `LOGSEG()text`. -/
theorem c9_counterexample :
    (runRecords ["LOGSEG()text".toList]).bucketLines = [] ∧
    (runRecords ["LOGSEG()text".toList]).constructed = [] ∧
    (runRecords ["LOGSEG()text".toList]).consoleLines = ["text".toList] ∧
    "text".toList ≠ "LOGSEG()text".toList := by decide

/-- C9 (amended): a record whose tag resolves to the empty bucket name
creates no sink and no sub-logger and raises nothing, and the root
sink (which runs before the router) still persists the original text —
but the record itself is rewritten in place: every handler after the
router sees the message with the empty tag stripped, so the handling
is not byte-identical to that of an untagged record. -/
theorem c9_empty_tag_strips (body : Msg) (hb : findTag body = none) :
    bucketOf (emptyTagged body) = none ∧
    (runRecords [emptyTagged body]).bucketLines = [] ∧
    (runRecords [emptyTagged body]).constructed = [] ∧
    (runRecords [emptyTagged body]).rootLines = [emptyTagged body] ∧
    (runRecords [emptyTagged body]).consoleLines = [body] := by
  have hft : findTag (emptyTagged body) = some ([], [], body) := rfl
  have hps : processLogseg (emptyTagged body) = (body, some []) := by
    simp only [processLogseg, hft]
    rw [subAllTags_some _ _ _ _ hft, subAllTags_none _ hb]
    rfl
  have hbucket : bucketOf (emptyTagged body) = none := by
    simp [bucketOf, hps]
  have hentry : bucketEntryOf (emptyTagged body) = [] := by
    simp [bucketEntryOf, hbucket]
  refine ⟨hbucket, ?_, ?_, ?_, ?_⟩
  · simp [runRecords, handleRecord_bucketLines, hentry, initState]
  · simp [runRecords, handleRecord_constructed, hbucket, initState]
  · simp [runRecords, handleRecord_rootLines, initState]
  · simp [runRecords, handleRecord_consoleLines, strippedOf, hps, initState]

theorem c9_witness :
    bucketOf (emptyTagged "text".toList) = none ∧
    (runRecords [emptyTagged "text".toList]).bucketLines = [] ∧
    (runRecords [emptyTagged "text".toList]).constructed = [] ∧
    (runRecords [emptyTagged "text".toList]).rootLines = [emptyTagged "text".toList] ∧
    (runRecords [emptyTagged "text".toList]).consoleLines = ["text".toList] :=
  c9_empty_tag_strips _ (by decide)

/-- C10 counterexample: with two handlers pre-installed on the child's
root logger, the cleanup loop removes only the first — the second
survives alongside the newly attached queue handler, so `get_logger`
does not close and remove *every* pre-installed handler. -/
theorem c10_counterexample :
    childGetLogger ["handler_a", "handler_b"] "4242"
      = ["handler_b", "4242"] := by decide

/-- C10 (amended): in a non-originating process with a queue supplied,
`get_logger` runs the tear-down loop over the child root logger's
handler list *before* attaching the queue-forwarding handler, and the
queue handler is attached to the root logger, not to the returned
named logger (which reaches it only via propagation) — but because the
loop iterates the list it mutates, only the handlers at even positions
are closed and removed; the survivors are exactly the odd-position
handlers, and every pre-installed handler is destroyed only when at
most one was installed. -/
theorem c10_child_cleanup_alternates (hs : List String) (pid : String)
    (h : pid ∉ removeIter hs) :
    childGetLogger hs pid = oddElems hs ++ [pid] ∧
    (hs.length ≤ 1 → childGetLogger hs pid = [pid]) := by
  have hmain : childGetLogger hs pid = removeIter hs ++ [pid] := by
    simp [childGetLogger, h]
  constructor
  · rw [hmain, removeIter_eq_oddElems]
  · intro hlen
    rw [hmain, removeIter_eq_oddElems]
    have hodd : oddElems hs = [] := by
      cases hs with
      | nil => rfl
      | cons a t =>
        cases t with
        | nil => rfl
        | cons b u => simp at hlen
    rw [hodd]
    rfl

theorem c10_witness :
    childGetLogger ["old_a", "old_b", "old_c"] "777"
      = oddElems ["old_a", "old_b", "old_c"] ++ ["777"] ∧
    (["old_a", "old_b", "old_c"].length ≤ 1 →
      childGetLogger ["old_a", "old_b", "old_c"] "777" = ["777"]) :=
  c10_child_cleanup_alternates _ _ (by decide)

end Logseg
